import Mathlib

/-!
# sonic-gnmi event client: shallow embedding of `events_client.go`

The Go file `sonic_data_client/events_client.go` is embedded as pure Lean
functions over explicit state.

* Machine integers are `Nat` (uint64) or `Int` (int64, C int) with explicit
  reduction modulo `2 ^ 64` wherever the source arithmetic can wrap.
* A Go `map[string]uint64` is an association list read with first-match lookup;
  reading an absent key yields zero, as in Go.
* Calls into the native event library and into the counters store are recorded
  as ghost lists, so that "was released" and "was written" are observable.
* A Go run-time fault (integer division by zero, index out of range) is an
  `Except` error.
* The loops `get_events`, `StreamRun` and `update_stats` are embedded as their
  loop bodies (one iteration each); `get_events_loop` runs the body of
  `get_events` over the successive results of `event_receive_wrap`.
-/

namespace EventsClient

/-! ## Constants -/

/-- Size of list of latencies. -/
def LATENCY_LIST_SIZE : Nat := 10

/-- Max cnt of pending events in PQ. -/
def PQ_MAX_SIZE : Nat := 10240

def MISSED : String := "EVENTS_COUNTERS:missed_internal"
def DROPPED : String := "EVENTS_COUNTERS:missed_by_slow_receiver"
def LATENCY : String := "EVENTS_COUNTERS:latency_in_ms"

def STATS_CUMULATIVE_KEYS : List String := [MISSED, DROPPED]
def STATS_ABSOLUTE_KEYS : List String := [LATENCY]

def STATS_FIELD_NAME : String := "value"

/-! ## Machine arithmetic -/

/-- The modulus of 64-bit unsigned arithmetic. -/
def U64 : Nat := 2 ^ 64

/-- Go `a + b` on `uint64`: addition wraps modulo `2 ^ 64`. -/
def add64 (a b : Nat) : Nat := (a + b) % U64

/-- Go conversion of a signed value to `uint64` (two-complement wrap). -/
def toUint64 (i : Int) : Nat := (i % (U64 : Int)).toNat

/-- Go conversion of a value to `int64` (two-complement wrap). -/
def toInt64 (i : Int) : Int :=
  let r := i % (U64 : Int)
  if r < 2 ^ 63 then r else r - (U64 : Int)

/-! ## Go maps `map[string]uint64` -/

/-- A Go `map[string]uint64`: association list, the first binding of a key is
the live one. -/
abbrev CounterMap := List (String × Nat)

/-- Go `m[k]` as an r-value: the value bound to `k`, zero when absent. -/
def mapGet : CounterMap → String → Nat
  | [], _ => 0
  | (k', v') :: m, k => if k' = k then v' else mapGet m k

/-- Whether `k` is a key of the map. -/
def mapHas : CounterMap → String → Bool
  | [], _ => false
  | (k', _) :: m, k => if k' = k then true else mapHas m k

/-- Go `m[k] = v`: rebinds `k` when present, adds the binding otherwise. -/
def mapSet : CounterMap → String → Nat → CounterMap
  | [], k, v => [(k, v)]
  | (k', v') :: m, k, v => if k' = k then (k, v) :: m else (k', v') :: mapSet m k v

/-- One direction of map comparison: every binding of `a` is found in `b`. -/
def mapIncluded (a b : CounterMap) : Bool :=
  a.all (fun kv => mapHas b kv.1 && (mapGet b kv.1 == mapGet a kv.1))

/-- Go `reflect.DeepEqual` on two non-nil maps: same keys, same values. -/
def deepEqual (a b : CounterMap) : Bool := mapIncluded a b && mapIncluded b a

/-! ## Collaborators: queued values, the shared queue, the native library -/

/-- The `gnmipb.TypedValue` payloads built by this file. -/
inductive TypedValue where
  /-- `TypedValue_StringVal`: the text of a received event. -/
  | StringVal (s : String)
  /-- `TypedValue_JsonIetfVal`: the marshalled heartbeat object. -/
  | JsonIetfVal (json : String)
  deriving DecidableEq, Repr

/-- The `spb.Value` envelope put on the queue by `send_event`. -/
structure Value where
  Prefix : String
  Path : Option String
  Timestamp : Int
  Val : TypedValue
  deriving DecidableEq, Repr

/-- Modelled from the spec: the shared bounded priority queue of the consuming
session (a third-party type, not part of this repository), specified by its
interface `Put(value) → error` and `Len() → int`, with a closed state in which
`Put` fails. The values are kept in insertion order; the priority order in
which the consumer takes them out is not modelled. -/
structure PriorityQueue where
  items : List Value
  disposed : Bool
  deriving DecidableEq, Repr

/-- Modelled from the spec: `Len()`, the number of values waiting. -/
def PriorityQueue.Len (q : PriorityQueue) : Nat := q.items.length

/-- Modelled from the spec: `Put(value)`, which fails on a closed queue and
otherwise stores the value. -/
def PriorityQueue.Put (q : PriorityQueue) (v : Value) : Except String PriorityQueue :=
  if q.disposed then Except.error "queue: disposed"
  else Except.ok { q with items := q.items ++ [v] }

/-- What `event_receive_wrap` leaves behind: its return code and the fields of
`event_receive_op_C_t` it filled in. -/
structure event_receive_op_C_t where
  rc : Int
  event_str : String
  missed_cnt : Nat
  publish_epoch_ms : Int
  deriving DecidableEq, Repr

/-! ## The client -/

/-- The Go struct `EventClient`. The fields `channel` and `wg` carry no data
and are left out; `subs_handle` is `none` for a nil pointer. The ghost field
`deinit_calls` records, in order, the argument of every call of
`events_deinit_subscriber_wrap`. -/
structure EventClient where
  pfx : String
  path : Option String
  q : PriorityQueue
  subs_handle : Option Nat
  stopped : Int
  counters : CounterMap
  last_latencies : List Int
  last_latency_index : Nat
  last_latency_full : Bool
  last_errors : Int
  deinit_calls : List (Option Nat)
  deriving DecidableEq, Repr

/-- The function `NewEventClient`: of `paths` the last one is kept (none when
the list is empty), `handle` is what `events_init_subscriber_wrap` returned,
`q` the queue later installed by `StreamRun`. All counters are zero, the
latency list is ten zeros, index zero, not full. -/
def NewEventClient (paths : List String) (pfx : String) (handle : Nat) (q : PriorityQueue) :
    EventClient :=
  { pfx := pfx
    path := paths.foldl (fun _ path => some path) none
    q := q
    subs_handle := some handle
    stopped := 0
    counters := (STATS_CUMULATIVE_KEYS ++ STATS_ABSOLUTE_KEYS).foldl (fun m key => mapSet m key 0) []
    last_latencies := List.replicate LATENCY_LIST_SIZE 0
    last_latency_index := 0
    last_latency_full := false
    last_errors := 0
    deinit_calls := [] }

/-! ## `send_event`, `get_events`, `StreamRun` -/

/-- The function `send_event`: wraps the value with the routing data of the
client and puts it on the queue; the error of `Put` is returned as is. -/
def send_event (evtc : EventClient) (tv : TypedValue) (timestamp : Int) :
    Except String EventClient :=
  let spbv : Value := { Prefix := evtc.pfx, Path := evtc.path, Timestamp := timestamp, Val := tv }
  match evtc.q.Put spbv with
  | Except.error err => Except.error err
  | Except.ok q => Except.ok { evtc with q := q }

/-- How one pass through the body of a `for` loop ends. -/
inductive Flow where
  /-- The loop goes on with its next iteration. -/
  | next
  /-- The function has returned. -/
  | returned
  deriving DecidableEq, Repr

/-- The end of an iteration of `get_events` (lines 203 to 208): when the
stopped flag is set the subscriber is released, the handle is cleared and the
function returns. -/
def get_events_stop_check (evtc : EventClient) : EventClient × Flow :=
  if evtc.stopped = 1 then
    ({ evtc with
        deinit_calls := evtc.deinit_calls ++ [evtc.subs_handle]
        subs_handle := none }, Flow.returned)
  else (evtc, Flow.next)

/-- One iteration of the `for` loop of `get_events` (lines 183 to 211), given
what `event_receive_wrap` produced. `cap` stands for the constant
`PQ_MAX_SIZE`, which the source fixes at 10240. -/
def get_events_iter (cap : Nat) (evtc : EventClient) (evt : event_receive_op_C_t) :
    EventClient × Flow :=
  if evt.rc = 0 then
    let evtc1 := { evtc with
      counters := mapSet evtc.counters MISSED (add64 (mapGet evtc.counters MISSED) evt.missed_cnt) }
    if evtc1.q.Len < cap then
      match send_event evtc1 (TypedValue.StringVal evt.event_str) evt.publish_epoch_ms with
      | Except.error _ => (evtc1, Flow.returned)
      | Except.ok evtc2 => get_events_stop_check evtc2
    else
      get_events_stop_check { evtc1 with
        counters := mapSet evtc1.counters DROPPED (add64 (mapGet evtc1.counters DROPPED) 1) }
  else get_events_stop_check evtc

/-- The loop of `get_events` run over the successive results of
`event_receive_wrap`, with no other task touching the client in between.
Returns when an iteration returns; `Flow.next` means the loop is still
running after the last given result. -/
def get_events_loop (cap : Nat) : EventClient → List event_receive_op_C_t → EventClient × Flow
  | evtc, [] => (evtc, Flow.next)
  | evtc, evt :: rest =>
      match get_events_iter cap evtc evt with
      | (evtc1, Flow.next) => get_events_loop cap evtc1 rest
      | (evtc1, Flow.returned) => (evtc1, Flow.returned)

/-- The heartbeat payload `hbTv` of `StreamRun`: the JSON of the one-entry
object with key heart and value beat. -/
def hbTv : TypedValue := TypedValue.JsonIetfVal "\x7b\"heart\":\"beat\"\x7d"

/-- Which case of the `select` in `StreamRun` fired. -/
inductive Select where
  /-- The interval ticker; `now` is `time.Now().UnixNano()`. -/
  | ticker (now : Int)
  /-- The stop channel of the client. -/
  | stop
  deriving DecidableEq, Repr

/-- One iteration of the `for`/`select` loop of `StreamRun` (lines 252 to 264). -/
def StreamRun_iter (evtc : EventClient) : Select → EventClient × Flow
  | Select.ticker now =>
      match send_event evtc hbTv now with
      | Except.error _ => (evtc, Flow.returned)
      | Except.ok evtc1 => (evtc1, Flow.next)
  | Select.stop => ({ evtc with stopped := 1 }, Flow.returned)

/-! ## Delivery outcomes: `sent`, `failed_send` -/

/-- The method `sent`: `now` is `time.Now().UnixNano()`. The latency is stored
at the current index, the index advances and wraps at the length of the list,
setting the full flag. A store outside the list is the Go index fault. -/
def sent (c : EventClient) (now : Int) (val : Value) : Except String EventClient :=
  if c.last_latency_index < c.last_latencies.length then
    let c1 := { c with
      last_latencies := c.last_latencies.set c.last_latency_index (toInt64 (now - val.Timestamp)) }
    let c2 := { c1 with last_latency_index := c1.last_latency_index + 1 }
    if c2.last_latency_index ≥ c2.last_latencies.length then
      Except.ok { c2 with last_latency_index := 0, last_latency_full := true }
    else Except.ok c2
  else Except.error "index out of range"

/-- Successive calls of `sent`, one per pair of clock reading and value. -/
def sent_seq : EventClient → List (Int × Value) → Except String EventClient
  | c, [] => Except.ok c
  | c, call :: rest =>
      match sent c call.1 call.2 with
      | Except.error err => Except.error err
      | Except.ok c1 => sent_seq c1 rest

/-- The method `failed_send`. -/
def failed_send (c : EventClient) (cnt : Int) : EventClient :=
  { c with last_errors := cnt }

/-! ## The aggregation loop `update_stats` -/

/-- One `HMSet(key, fv)` sent to the counters store, `fv` holding the single
field `field`; `val` is the number whose decimal text is the field value. -/
structure HMSetCall where
  key : String
  field : String
  val : Nat
  deriving DecidableEq, Repr

/-- The variables of `update_stats` that live across iterations of its loop. -/
structure StatsLocals where
  db_counters : CounterMap
  wr_counters : Option CounterMap
  deriving DecidableEq, Repr

/-- Lines 115 to 125 of `update_stats`: `persisted key` is the number read from
field `value` of `key` in the store. The last-written pointer starts nil. -/
def update_stats_init (persisted : String → Nat) : StatsLocals :=
  let db1 := STATS_CUMULATIVE_KEYS.foldl (fun m key => mapSet m key (persisted key % U64)) []
  let db2 := STATS_ABSOLUTE_KEYS.foldl (fun m key => mapSet m key 0) db1
  { db_counters := db2, wr_counters := none }

/-- Lines 132 to 140: the running `total` (uint64) and `cnt` over the slots
with a positive value. -/
def latency_total_cnt (last_latencies : List Int) : Nat × Nat :=
  last_latencies.foldl
    (fun acc v => if v > 0 then (add64 acc.1 (toUint64 v), acc.2 + 1) else acc) (0, 0)

/-- Lines 131 to 142: the refresh of `counters[LATENCY]`, done only when the
list is full. Dividing by a zero `cnt` is the Go run-time fault. -/
def update_latency (evtc : EventClient) : Except String EventClient :=
  if evtc.last_latency_full then
    let tc := latency_total_cnt evtc.last_latencies
    if tc.2 = 0 then Except.error "integer divide by zero"
    else Except.ok { evtc with
      counters := mapSet evtc.counters LATENCY
        (toUint64 (toInt64 ((tc.1 / tc.2 / 1000 / 1000 : Nat) : Int))) }
  else Except.ok evtc

/-- Lines 144 to 147: the freshly computed set. Go visits the bindings of a
map in no fixed order; here they are visited last to first, so that for a key
bound twice in the list the live (first) binding is the one that stays. -/
def tmp_counters (counters db_counters : CounterMap) (last_errors : Int) : CounterMap :=
  let tmp := counters.foldr (fun kv t => mapSet t kv.1 (add64 kv.2 (mapGet db_counters kv.1))) []
  mapSet tmp DROPPED (add64 (mapGet tmp DROPPED) (toUint64 last_errors))

/-- What one pass through the loop body of `update_stats` leaves: the client,
the loop variables, and as ghost data the set computed by this pass and the
`HMSet` calls it issued. -/
structure Tick where
  evtc : EventClient
  loc : StatsLocals
  tmp : CounterMap
  hmset_calls : List HMSetCall
  deriving DecidableEq, Repr

/-- One iteration of the loop of `update_stats` (lines 128 to 161), which the
loop enters while the stopped flag is 0. A failed `HMSet` is only logged, so
the outcome of the store plays no part. -/
def update_stats_tick (evtc : EventClient) (loc : StatsLocals) : Except String Tick :=
  match update_latency evtc with
  | Except.error err => Except.error err
  | Except.ok evtc1 =>
      let tmp := tmp_counters evtc1.counters loc.db_counters evtc1.last_errors
      match loc.wr_counters with
      | some wr =>
          if !deepEqual tmp wr then
            Except.ok
              { evtc := evtc1
                loc := { loc with wr_counters := some tmp }
                tmp := tmp
                hmset_calls := tmp.map (fun kv => { key := kv.1, field := STATS_FIELD_NAME, val := kv.2 }) }
          else Except.ok { evtc := evtc1, loc := loc, tmp := tmp, hmset_calls := [] }
      | none => Except.ok { evtc := evtc1, loc := loc, tmp := tmp, hmset_calls := [] }

/-! ## Concrete inputs used by the closed statements below -/

/-- The value `get_events` hands to the queue for a received record. -/
def event_value (evtc : EventClient) (evt : event_receive_op_C_t) : Value :=
  { Prefix := evtc.pfx, Path := evtc.path, Timestamp := evt.publish_epoch_ms,
    Val := TypedValue.StringVal evt.event_str }

/-- The value `StreamRun` hands to the queue on a heartbeat tick at time `now`. -/
def heartbeat_value (evtc : EventClient) (now : Int) : Value :=
  { Prefix := evtc.pfx, Path := evtc.path, Timestamp := now, Val := hbTv }

/-- A received record (return code zero) with the given missed count. -/
def record (missed_cnt : Nat) : event_receive_op_C_t :=
  { rc := 0, event_str := "event", missed_cnt := missed_cnt, publish_epoch_ms := 1700000000000 }

/-- A freshly constructed client on an empty open queue. -/
def freshClient : EventClient := NewEventClient ["events"] "gnmi" 1 { items := [], disposed := false }

/-- A freshly constructed client whose queue has been closed by the consumer. -/
def closedQueueClient : EventClient := NewEventClient ["events"] "gnmi" 1 { items := [], disposed := true }

/-- A freshly constructed client whose queue already holds `PQ_MAX_SIZE` values. -/
def fullQueueClient : EventClient :=
  NewEventClient ["events"] "gnmi" 1
    { items := List.replicate PQ_MAX_SIZE (heartbeat_value freshClient 0), disposed := false }

/-- The latency `sent` stores for a call made at clock reading `call.1` for
the value `call.2`: the difference of the two, as an int64. -/
def latency_of (call : Int × Value) : Int := toInt64 (call.1 - call.2.Timestamp)

/-- The latency counter of the client after the given calls of `sent` on `c0`
followed by one iteration of the loop of `update_stats`. -/
def latency_after (c0 : EventClient) (calls : List (Int × Value)) (loc : StatsLocals) :
    Except String Nat :=
  match sent_seq c0 calls with
  | Except.error err => Except.error err
  | Except.ok c =>
      match update_stats_tick c loc with
      | Except.error err => Except.error err
      | Except.ok t => Except.ok (mapGet t.evtc.counters LATENCY)

/-- The value one iteration of the loop of `update_stats` computes for `key`
in its fresh set `tmp_counters`. -/
def published (evtc : EventClient) (loc : StatsLocals) (key : String) : Except String Nat :=
  match update_stats_tick evtc loc with
  | Except.error err => Except.error err
  | Except.ok t => Except.ok (mapGet t.tmp key)

/-- The positive values of a list of latencies, the ones `update_stats` averages. -/
def positive_latencies (lats : List Int) : List Int := lats.filter (fun v => decide (0 < v))

/-- The loop variables of `update_stats` on a store whose counters are all zero. -/
def zeroStoreLocals : StatsLocals := update_stats_init (fun _ => 0)

/-- The loop variables of `update_stats` on a store of zeros when the set
last written was the empty one. -/
def staleLocals : StatsLocals := { zeroStoreLocals with wr_counters := some [] }

/-- A fresh client after `get_events` received one record with missed count 4. -/
def clientWithMissed4 : EventClient := (get_events_loop PQ_MAX_SIZE freshClient [record 4]).1

/-- A fresh client after one iteration of `get_events` that, with the capacity
set to zero, received a record with missed count 2 and dropped it, and after
`failed_send 3`. -/
def clientAfterDrop : EventClient :=
  failed_send (get_events_iter 0 freshClient (record 2)).1 3

/-- A call of `sent` whose latency is `lat` nanoseconds: a heartbeat value
stamped 1000 and delivered at clock reading `1000 + lat`. -/
def call_with_latency (lat : Int) : Int × Value :=
  (1000 + lat, { Prefix := "gnmi", Path := some "events", Timestamp := 1000, Val := hbTv })

/-- Ten calls of `sent`: nine with a latency of ten milliseconds and one, the
fourth, with latency zero. -/
def nine_at_10ms_one_zero : List (Int × Value) :=
  [call_with_latency 10000000, call_with_latency 10000000, call_with_latency 10000000,
   call_with_latency 0, call_with_latency 10000000, call_with_latency 10000000,
   call_with_latency 10000000, call_with_latency 10000000, call_with_latency 10000000,
   call_with_latency 10000000]

/-- Ten calls of `sent` with latencies of one to ten milliseconds. -/
def ten_from_1ms_to_10ms : List (Int × Value) :=
  [call_with_latency 1000000, call_with_latency 2000000, call_with_latency 3000000,
   call_with_latency 4000000, call_with_latency 5000000, call_with_latency 6000000,
   call_with_latency 7000000, call_with_latency 8000000, call_with_latency 9000000,
   call_with_latency 10000000]

/-- Ten calls of `sent`, each with latency zero. -/
def ten_at_zero : List (Int × Value) := List.replicate 10 (call_with_latency 0)

/-- The number of records among the results of `event_receive_wrap`: those
with return code zero. -/
def record_count : List event_receive_op_C_t → Nat
  | [] => 0
  | evt :: rest => (if evt.rc = 0 then 1 else 0) + record_count rest

/-! ## Lemmas on maps and machine arithmetic -/

theorem MISSED_ne_DROPPED : MISSED ≠ DROPPED := by decide

theorem MISSED_ne_LATENCY : MISSED ≠ LATENCY := by decide

theorem DROPPED_ne_LATENCY : DROPPED ≠ LATENCY := by decide

theorem U64_pos : 0 < U64 := by decide

theorem add64_lt (a b : Nat) : add64 a b < U64 := Nat.mod_lt _ U64_pos

theorem mapGet_mapSet_self (m : CounterMap) (k : String) (v : Nat) :
    mapGet (mapSet m k v) k = v := by
  induction m with
  | nil => simp [mapSet, mapGet]
  | cons kv m ih =>
    obtain ⟨k', v'⟩ := kv
    by_cases h : k' = k
    · simp [mapSet, mapGet, h]
    · simp [mapSet, mapGet, h, ih]

theorem mapGet_mapSet_ne (m : CounterMap) (k k' : String) (v : Nat) (hne : k ≠ k') :
    mapGet (mapSet m k v) k' = mapGet m k' := by
  induction m with
  | nil => simp [mapSet, mapGet, hne]
  | cons kv m ih =>
    obtain ⟨k0, v0⟩ := kv
    by_cases h : k0 = k
    · subst h
      simp [mapSet, mapGet, hne]
    · by_cases h' : k0 = k'
      · subst h'
        simp [mapSet, mapGet, h]
      · simp [mapSet, mapGet, h, h', ih]

theorem mapHas_mapSet_ne (m : CounterMap) (k k' : String) (v : Nat) (hne : k ≠ k') :
    mapHas (mapSet m k v) k' = mapHas m k' := by
  induction m with
  | nil => simp [mapSet, mapHas, hne]
  | cons kv m ih =>
    obtain ⟨k0, v0⟩ := kv
    by_cases h : k0 = k
    · subst h
      simp [mapSet, mapHas, hne]
    · by_cases h' : k0 = k'
      · subst h'
        simp [mapSet, mapHas, h]
      · simp [mapSet, mapHas, h, h', ih]

/-! ## Lemmas on `get_events` -/

theorem get_events_stop_check_counters (evtc : EventClient) :
    (get_events_stop_check evtc).1.counters = evtc.counters := by
  unfold get_events_stop_check
  split <;> rfl

theorem get_events_stop_check_running (evtc : EventClient) (h : evtc.stopped ≠ 1) :
    get_events_stop_check evtc = (evtc, Flow.next) := by
  simp [get_events_stop_check, h]

theorem get_events_iter_no_record (cap : Nat) (evtc : EventClient) (evt : event_receive_op_C_t)
    (h : evt.rc ≠ 0) : get_events_iter cap evtc evt = get_events_stop_check evtc := by
  simp [get_events_iter, h]

theorem get_events_iter_drop (cap : Nat) (evtc : EventClient) (evt : event_receive_op_C_t)
    (h : evt.rc = 0) (hfull : cap ≤ evtc.q.Len) :
    get_events_iter cap evtc evt =
      get_events_stop_check { evtc with
        counters := mapSet (mapSet evtc.counters MISSED (add64 (mapGet evtc.counters MISSED) evt.missed_cnt))
          DROPPED (add64 (mapGet evtc.counters DROPPED) 1) } := by
  have hlen : ¬ evtc.q.Len < cap := Nat.not_lt.mpr hfull
  simp [get_events_iter, h, hlen, mapGet_mapSet_ne _ _ _ _ MISSED_ne_DROPPED]

theorem get_events_iter_put (cap : Nat) (evtc : EventClient) (evt : event_receive_op_C_t)
    (h : evt.rc = 0) (hroom : evtc.q.Len < cap) (hopen : evtc.q.disposed = false) :
    get_events_iter cap evtc evt =
      get_events_stop_check { evtc with
        counters := mapSet evtc.counters MISSED (add64 (mapGet evtc.counters MISSED) evt.missed_cnt)
        q := { evtc.q with items := evtc.q.items ++ [event_value evtc evt] } } := by
  simp [get_events_iter, h, hroom, send_event, PriorityQueue.Put, hopen, event_value]

theorem get_events_iter_put_error (cap : Nat) (evtc : EventClient) (evt : event_receive_op_C_t)
    (h : evt.rc = 0) (hroom : evtc.q.Len < cap) (hclosed : evtc.q.disposed = true) :
    get_events_iter cap evtc evt =
      ({ evtc with
        counters := mapSet evtc.counters MISSED (add64 (mapGet evtc.counters MISSED) evt.missed_cnt) },
       Flow.returned) := by
  simp [get_events_iter, h, hroom, send_event, PriorityQueue.Put, hclosed]

theorem get_events_loop_cons_next (cap : Nat) (evtc c : EventClient) (evt : event_receive_op_C_t)
    (rest : List event_receive_op_C_t) (h : get_events_iter cap evtc evt = (c, Flow.next)) :
    get_events_loop cap evtc (evt :: rest) = get_events_loop cap c rest := by
  simp [get_events_loop, h]

theorem get_events_loop_cons_returned (cap : Nat) (evtc c : EventClient) (evt : event_receive_op_C_t)
    (rest : List event_receive_op_C_t) (h : get_events_iter cap evtc evt = (c, Flow.returned)) :
    get_events_loop cap evtc (evt :: rest) = (c, Flow.returned) := by
  simp [get_events_loop, h]

/-- Effect of one iteration on the dropped counter, for every state. -/
theorem get_events_iter_dropped (cap : Nat) (c : EventClient) (evt : event_receive_op_C_t) :
    mapGet (get_events_iter cap c evt).1.counters DROPPED =
      if evt.rc = 0 ∧ cap ≤ c.q.Len then add64 (mapGet c.counters DROPPED) 1
      else mapGet c.counters DROPPED := by
  by_cases h : evt.rc = 0
  · by_cases hfull : cap ≤ c.q.Len
    · rw [get_events_iter_drop cap c evt h hfull, get_events_stop_check_counters]
      simp [h, hfull, mapGet_mapSet_self]
    · have hroom : c.q.Len < cap := Nat.lt_of_not_le hfull
      cases hd : c.q.disposed with
      | true =>
        rw [get_events_iter_put_error cap c evt h hroom hd]
        simp [h, hfull, mapGet_mapSet_ne _ _ _ _ MISSED_ne_DROPPED]
      | false =>
        rw [get_events_iter_put cap c evt h hroom hd, get_events_stop_check_counters]
        simp [h, hfull, mapGet_mapSet_ne _ _ _ _ MISSED_ne_DROPPED]
  · rw [get_events_iter_no_record cap c evt h, get_events_stop_check_counters]
    simp [h]

/-- Effect of one iteration on the missed counter, for every state. -/
theorem get_events_iter_missed (cap : Nat) (c : EventClient) (evt : event_receive_op_C_t) :
    mapGet (get_events_iter cap c evt).1.counters MISSED =
      if evt.rc = 0 then add64 (mapGet c.counters MISSED) evt.missed_cnt
      else mapGet c.counters MISSED := by
  by_cases h : evt.rc = 0
  · by_cases hfull : cap ≤ c.q.Len
    · rw [get_events_iter_drop cap c evt h hfull, get_events_stop_check_counters]
      simp [h, mapGet_mapSet_self, mapGet_mapSet_ne _ _ _ _ MISSED_ne_DROPPED.symm]
    · have hroom : c.q.Len < cap := Nat.lt_of_not_le hfull
      cases hd : c.q.disposed with
      | true =>
        rw [get_events_iter_put_error cap c evt h hroom hd]
        simp [h, mapGet_mapSet_self]
      | false =>
        rw [get_events_iter_put cap c evt h hroom hd, get_events_stop_check_counters]
        simp [h, mapGet_mapSet_self]
  · rw [get_events_iter_no_record cap c evt h, get_events_stop_check_counters]
    simp [h]

/-- Shape of an iteration that drops a record; `flow` is decided by the stop flag. -/
theorem get_events_iter_drop_shape (cap : Nat) (evtc : EventClient) (evt : event_receive_op_C_t)
    (h : evt.rc = 0) (hfull : cap ≤ evtc.q.Len) :
    ∃ c : EventClient,
      get_events_iter cap evtc evt = (c, if evtc.stopped = 1 then Flow.returned else Flow.next) ∧
      c.q = evtc.q ∧ c.stopped = evtc.stopped ∧
      mapGet c.counters MISSED = add64 (mapGet evtc.counters MISSED) evt.missed_cnt ∧
      mapGet c.counters DROPPED = add64 (mapGet evtc.counters DROPPED) 1 := by
  have hiter := get_events_iter_drop cap evtc evt h hfull
  by_cases hstop : evtc.stopped = 1
  · simp only [get_events_stop_check, hstop, if_true] at hiter
    refine ⟨(get_events_iter cap evtc evt).1, ?_, ?_, ?_, ?_, ?_⟩ <;> rw [hiter] <;>
      simp [hstop, mapGet_mapSet_self, mapGet_mapSet_ne _ _ _ _ MISSED_ne_DROPPED.symm]
  · simp only [get_events_stop_check, hstop, if_false] at hiter
    refine ⟨(get_events_iter cap evtc evt).1, ?_, ?_, ?_, ?_, ?_⟩ <;> rw [hiter] <;>
      simp [hstop, mapGet_mapSet_self, mapGet_mapSet_ne _ _ _ _ MISSED_ne_DROPPED.symm]

/-- Shape of an iteration that enqueues a record; `flow` is decided by the stop flag. -/
theorem get_events_iter_put_shape (cap : Nat) (evtc : EventClient) (evt : event_receive_op_C_t)
    (h : evt.rc = 0) (hroom : evtc.q.Len < cap) (hopen : evtc.q.disposed = false) :
    ∃ c : EventClient,
      get_events_iter cap evtc evt = (c, if evtc.stopped = 1 then Flow.returned else Flow.next) ∧
      c.q.items = evtc.q.items ++ [event_value evtc evt] ∧ c.q.disposed = false ∧
      c.stopped = evtc.stopped ∧ c.pfx = evtc.pfx ∧ c.path = evtc.path ∧
      mapGet c.counters MISSED = add64 (mapGet evtc.counters MISSED) evt.missed_cnt ∧
      mapGet c.counters DROPPED = mapGet evtc.counters DROPPED := by
  have hiter := get_events_iter_put cap evtc evt h hroom hopen
  by_cases hstop : evtc.stopped = 1
  · simp only [get_events_stop_check, hstop, if_true] at hiter
    refine ⟨(get_events_iter cap evtc evt).1, ?_, ?_, ?_, ?_, ?_, ?_, ?_, ?_⟩ <;> rw [hiter] <;>
      simp [hstop, hopen, mapGet_mapSet_self, mapGet_mapSet_ne _ _ _ _ MISSED_ne_DROPPED]
  · simp only [get_events_stop_check, hstop, if_false] at hiter
    refine ⟨(get_events_iter cap evtc evt).1, ?_, ?_, ?_, ?_, ?_, ?_, ?_, ?_⟩ <;> rw [hiter] <;>
      simp [hstop, hopen, mapGet_mapSet_self, mapGet_mapSet_ne _ _ _ _ MISSED_ne_DROPPED]

/-- A run on an open queue with the stop flag unset consumes every result and
drops exactly the records that found the queue at capacity. -/
theorem get_events_loop_dropped (cap : Nat) (evts : List event_receive_op_C_t) :
    ∀ evtc : EventClient, evtc.q.disposed = false → evtc.stopped ≠ 1 →
      mapGet evtc.counters DROPPED < U64 →
      (get_events_loop cap evtc evts).2 = Flow.next ∧
      mapGet (get_events_loop cap evtc evts).1.counters DROPPED =
        (mapGet evtc.counters DROPPED + (record_count evts - (cap - evtc.q.Len))) % U64 := by
  induction evts with
  | nil =>
    intro evtc _ _ hd
    simp [get_events_loop, record_count, Nat.mod_eq_of_lt hd]
  | cons evt rest ih =>
    intro evtc hopen hrun hd
    by_cases h : evt.rc = 0
    · by_cases hfull : cap ≤ evtc.q.Len
      · obtain ⟨c, hc, hq, hs, -, hdr⟩ := get_events_iter_drop_shape cap evtc evt h hfull
        rw [if_neg hrun] at hc
        rw [get_events_loop_cons_next cap evtc c evt rest hc]
        have hih := ih c (by rw [hq]; exact hopen) (by rw [hs]; exact hrun)
          (by rw [hdr]; exact add64_lt _ _)
        refine ⟨hih.1, ?_⟩
        rw [hih.2, hdr, hq]
        have hz : cap - evtc.q.Len = 0 := Nat.sub_eq_zero_of_le hfull
        simp only [record_count, h, if_true, add64, hz, Nat.sub_zero, Nat.mod_add_mod]
        congr 1
        omega
      · have hroom : evtc.q.Len < cap := Nat.lt_of_not_le hfull
        obtain ⟨c, hc, hitems, hdisp, hs, -, -, -, hdr⟩ :=
          get_events_iter_put_shape cap evtc evt h hroom hopen
        rw [if_neg hrun] at hc
        rw [get_events_loop_cons_next cap evtc c evt rest hc]
        have hih := ih c hdisp (by rw [hs]; exact hrun) (by rw [hdr]; exact hd)
        refine ⟨hih.1, ?_⟩
        rw [hih.2, hdr]
        simp only [record_count, h, if_true, PriorityQueue.Len, hitems, List.length_append,
          List.length_singleton]
        simp only [PriorityQueue.Len] at hroom
        congr 2
        omega
    · have hiter := get_events_iter_no_record cap evtc evt h
      rw [get_events_stop_check_running _ hrun] at hiter
      rw [get_events_loop_cons_next cap evtc _ evt rest hiter]
      have hih := ih evtc hopen hrun hd
      refine ⟨hih.1, ?_⟩
      rw [hih.2]
      simp [record_count, h]

/-- A run puts at most one value on the queue per record, and when it has
put one for every record the missed counter has grown by the sum of their
missed counts and the dropped counter has not moved. -/
theorem get_events_loop_all_enqueued (cap : Nat) (evts : List event_receive_op_C_t) :
    ∀ evtc : EventClient, (∀ e ∈ evts, e.rc = 0) → mapGet evtc.counters MISSED < U64 →
      (get_events_loop cap evtc evts).1.q.Len ≤ evtc.q.Len + evts.length ∧
      ((get_events_loop cap evtc evts).1.q.Len = evtc.q.Len + evts.length →
        mapGet (get_events_loop cap evtc evts).1.counters MISSED =
          (mapGet evtc.counters MISSED + (evts.map (fun e => e.missed_cnt)).sum) % U64 ∧
        mapGet (get_events_loop cap evtc evts).1.counters DROPPED =
          mapGet evtc.counters DROPPED) := by
  induction evts with
  | nil =>
    intro evtc _ hm
    simp [get_events_loop, Nat.mod_eq_of_lt hm]
  | cons evt rest ih =>
    intro evtc hrec hm
    have h : evt.rc = 0 := hrec evt (List.mem_cons_self _ _)
    have hrest : ∀ e ∈ rest, e.rc = 0 := fun e he => hrec e (List.mem_cons_of_mem _ he)
    by_cases hfull : cap ≤ evtc.q.Len
    · obtain ⟨c, hc, hq, -, hmi, -⟩ := get_events_iter_drop_shape cap evtc evt h hfull
      by_cases hstop : evtc.stopped = 1
      · rw [if_pos hstop] at hc
        rw [get_events_loop_cons_returned cap evtc c evt rest hc]
        simp only [List.length_cons, hq]
        constructor
        · omega
        · intro heq
          omega
      · rw [if_neg hstop] at hc
        rw [get_events_loop_cons_next cap evtc c evt rest hc]
        have hih := (ih c hrest (by rw [hmi]; exact add64_lt _ _)).1
        rw [hq] at hih
        simp only [List.length_cons]
        constructor
        · omega
        · intro heq
          omega
    · have hroom : evtc.q.Len < cap := Nat.lt_of_not_le hfull
      cases hd : evtc.q.disposed with
      | true =>
        have hiter := get_events_iter_put_error cap evtc evt h hroom hd
        rw [get_events_loop_cons_returned cap evtc _ evt rest hiter]
        simp only [List.length_cons]
        constructor
        · omega
        · intro heq
          omega
      | false =>
        obtain ⟨c, hc, hitems, -, -, -, -, hmi, hdr⟩ :=
          get_events_iter_put_shape cap evtc evt h hroom hd
        have hlen : c.q.Len = evtc.q.Len + 1 := by
          simp [PriorityQueue.Len, hitems]
        by_cases hstop : evtc.stopped = 1
        · rw [if_pos hstop] at hc
          rw [get_events_loop_cons_returned cap evtc c evt rest hc]
          simp only [List.length_cons, hlen]
          constructor
          · omega
          · intro heq
            have hnil : rest = [] := List.eq_nil_of_length_eq_zero (by omega)
            subst hnil
            simp [hmi, hdr, add64]
        · rw [if_neg hstop] at hc
          rw [get_events_loop_cons_next cap evtc c evt rest hc]
          have hih := ih c hrest (by rw [hmi]; exact add64_lt _ _)
          rw [hlen] at hih
          simp only [List.length_cons]
          constructor
          · omega
          · intro heq
            have h2 := hih.2 (by omega)
            rw [h2.1, h2.2, hmi, hdr]
            simp only [add64, List.map_cons, List.sum_cons, Nat.mod_add_mod, Nat.add_assoc,
              and_self]

/-! ## Claims on the forwarding loop and the heartbeat -/

/-- C1: in every iteration of `get_events` the dropped counter is incremented
by one (64-bit) exactly when a record was received (return code zero) while
the queue length was at least the capacity, and is left as it was otherwise;
so a run over any results, started on an empty open queue that nobody drains
with the stop flag unset, consumes them all and leaves the dropped counter
grown by the number of records minus the capacity (zero when negative). -/
theorem C1_dropped_counts_records_received_at_capacity (cap : Nat) (evtc : EventClient)
    (evts : List event_receive_op_C_t)
    (hempty : evtc.q.items = []) (hopen : evtc.q.disposed = false) (hrun : evtc.stopped ≠ 1)
    (hd : mapGet evtc.counters DROPPED < U64) :
    (∀ (c : EventClient) (evt : event_receive_op_C_t),
      mapGet (get_events_iter cap c evt).1.counters DROPPED =
        if evt.rc = 0 ∧ cap ≤ c.q.Len then add64 (mapGet c.counters DROPPED) 1
        else mapGet c.counters DROPPED) ∧
    (get_events_loop cap evtc evts).2 = Flow.next ∧
    mapGet (get_events_loop cap evtc evts).1.counters DROPPED =
      (mapGet evtc.counters DROPPED + (record_count evts - cap)) % U64 := by
  refine ⟨fun c evt => get_events_iter_dropped cap c evt, ?_⟩
  have h := get_events_loop_dropped cap evts evtc hopen hrun hd
  have hlen : evtc.q.Len = 0 := by simp [PriorityQueue.Len, hempty]
  rw [hlen, Nat.sub_zero] at h
  exact h

/-- C1 at the scenario of the specification: capacity two, five records, the
consumer not draining: three records are counted as dropped. -/
theorem C1_witness_capacity_two_five_records :
    freshClient.q.items = [] ∧
    mapGet (get_events_loop 2 freshClient
      [record 0, record 0, record 0, record 0, record 0]).1.counters DROPPED = 3 :=
  ⟨rfl, (C1_dropped_counts_records_received_at_capacity 2 freshClient
      [record 0, record 0, record 0, record 0, record 0] rfl rfl (by decide) (by decide)).2.2.trans
      (by decide)⟩

/-- C2: when a run of `get_events` over records (return code zero) has put
every one of them on the queue, in receipt order, the missed counter equals
its starting value plus the sum of the missed counts of the records, in
64-bit unsigned arithmetic, and the dropped counter has not moved. In every
single iteration a received record adds its missed count to the missed
counter (64-bit), enqueued or not, and a receive without record adds nothing. -/
theorem C2_missed_is_start_plus_sum_of_missed_counts (cap : Nat) (evtc : EventClient)
    (evts : List event_receive_op_C_t)
    (hrec : ∀ e ∈ evts, e.rc = 0) (hm : mapGet evtc.counters MISSED < U64)
    (henq : (get_events_loop cap evtc evts).1.q.items =
      evtc.q.items ++ evts.map (event_value evtc)) :
    mapGet (get_events_loop cap evtc evts).1.counters MISSED =
      (mapGet evtc.counters MISSED + (evts.map (fun e => e.missed_cnt)).sum) % U64 ∧
    mapGet (get_events_loop cap evtc evts).1.counters DROPPED =
      mapGet evtc.counters DROPPED ∧
    (∀ (c : EventClient) (evt : event_receive_op_C_t),
      mapGet (get_events_iter cap c evt).1.counters MISSED =
        if evt.rc = 0 then add64 (mapGet c.counters MISSED) evt.missed_cnt
        else mapGet c.counters MISSED) := by
  have hlen : (get_events_loop cap evtc evts).1.q.Len = evtc.q.Len + evts.length := by
    simp [PriorityQueue.Len, henq]
  have h := (get_events_loop_all_enqueued cap evts evtc hrec hm).2 hlen
  exact ⟨h.1, h.2, fun c evt => get_events_iter_missed cap c evt⟩

/-- C2 at the scenario of the specification: missed counts 0, 2, 1 from a
zeroed client give a missed counter of 3 and a dropped counter of 0. -/
theorem C2_witness_missed_counts_0_2_1 :
    (get_events_loop PQ_MAX_SIZE freshClient [record 0, record 2, record 1]).1.q.items =
      [record 0, record 2, record 1].map (event_value freshClient) ∧
    mapGet (get_events_loop PQ_MAX_SIZE freshClient
      [record 0, record 2, record 1]).1.counters MISSED = 3 ∧
    mapGet (get_events_loop PQ_MAX_SIZE freshClient
      [record 0, record 2, record 1]).1.counters DROPPED = 0 :=
  have h := C2_missed_is_start_plus_sum_of_missed_counts PQ_MAX_SIZE freshClient
    [record 0, record 2, record 1] (by decide) (by decide) (by decide)
  ⟨by decide, h.1.trans (by decide), h.2.1.trans (by decide)⟩

/-- C3: the exit of `get_events` on an enqueue error releases nothing. On a
client whose queue is closed, the first received record makes the loop return
with no call of `events_deinit_subscriber_wrap` and the handle still set,
whereas the exit on the stop flag releases the handle once and clears it. -/
theorem C3_enqueue_error_exit_leaves_handle_unreleased :
    (get_events_loop PQ_MAX_SIZE closedQueueClient [record 0]).2 = Flow.returned ∧
    (get_events_loop PQ_MAX_SIZE closedQueueClient [record 0]).1.deinit_calls = [] ∧
    (get_events_loop PQ_MAX_SIZE closedQueueClient [record 0]).1.subs_handle = some 1 ∧
    (get_events_loop PQ_MAX_SIZE { freshClient with stopped := 1 } [record 0]).2 = Flow.returned ∧
    (get_events_loop PQ_MAX_SIZE { freshClient with stopped := 1 } [record 0]).1.deinit_calls =
      [some 1] ∧
    (get_events_loop PQ_MAX_SIZE { freshClient with stopped := 1 } [record 0]).1.subs_handle =
      none := by
  decide

/-- C9, as stated, fails: on a queue that already holds `PQ_MAX_SIZE` values a
heartbeat tick of `StreamRun` still enqueues the heartbeat, as the last value
of a queue now one longer, and the loop goes on. -/
theorem C9_heartbeat_enqueued_on_full_queue :
    PQ_MAX_SIZE ≤ fullQueueClient.q.Len ∧
    (StreamRun_iter fullQueueClient (Select.ticker 5)).2 = Flow.next ∧
    (StreamRun_iter fullQueueClient (Select.ticker 5)).1.q.Len = PQ_MAX_SIZE + 1 ∧
    (StreamRun_iter fullQueueClient (Select.ticker 5)).1.q.items.getLast? =
      some (heartbeat_value fullQueueClient 5) := by
  simp [fullQueueClient, NewEventClient, StreamRun_iter, send_event, PriorityQueue.Put,
    PriorityQueue.Len, heartbeat_value]

/-- C9, amended: the heartbeat branch of `StreamRun` does not look at the queue
length. On every heartbeat tick `send_event` puts the heartbeat value at the
end of the queue and the loop goes on, unless the queue is closed, in which
case nothing is enqueued and `StreamRun` returns. -/
theorem C9_heartbeat_put_whatever_the_queue_length (evtc : EventClient) (now : Int) :
    StreamRun_iter evtc (Select.ticker now) =
      if evtc.q.disposed then (evtc, Flow.returned)
      else ({ evtc with q := { evtc.q with items := evtc.q.items ++ [heartbeat_value evtc now] } },
        Flow.next) := by
  cases hd : evtc.q.disposed <;>
    simp [StreamRun_iter, send_event, PriorityQueue.Put, hd, heartbeat_value]

/-! ## Lemmas on `sent` -/

theorem sent_ok (c : EventClient) (now : Int) (val : Value)
    (h : c.last_latency_index < c.last_latencies.length) :
    ∃ c1 : EventClient, sent c now val = Except.ok c1 ∧
      c1.last_latencies = c.last_latencies.set c.last_latency_index (latency_of (now, val)) ∧
      c1.last_latency_index =
        (if c.last_latencies.length ≤ c.last_latency_index + 1 then 0
          else c.last_latency_index + 1) ∧
      c1.last_latency_full =
        (c.last_latency_full || decide (c.last_latencies.length ≤ c.last_latency_index + 1)) ∧
      c1.counters = c.counters ∧ c1.last_errors = c.last_errors := by
  by_cases hw : c.last_latencies.length ≤ c.last_latency_index + 1
  · refine ⟨_, by simp only [sent, h, if_true, List.length_set, ge_iff_le, hw]; rfl, ?_⟩
    simp [hw, latency_of]
  · refine ⟨_, by simp only [sent, h, if_true, List.length_set, ge_iff_le, hw, if_false]; rfl, ?_⟩
    simp [hw, latency_of]

theorem sent_seq_invariant (calls : List (Int × Value)) :
    ∀ c : EventClient, c.last_latencies.length = 10 → c.last_latency_index < 10 →
      ∃ c' : EventClient, sent_seq c calls = Except.ok c' ∧
        c'.last_latencies.length = 10 ∧
        c'.last_latency_index = (c.last_latency_index + calls.length) % 10 ∧
        c'.last_latency_full =
          (c.last_latency_full || decide (10 ≤ c.last_latency_index + calls.length)) ∧
        c'.counters = c.counters ∧ c'.last_errors = c.last_errors ∧
        (∀ j, j < calls.length → calls.length ≤ j + 10 →
          c'.last_latencies[(c.last_latency_index + j) % 10]? = (calls[j]?).map latency_of) ∧
        (∀ i, (∀ j, j < calls.length → (c.last_latency_index + j) % 10 ≠ i) →
          c'.last_latencies[i]? = c.last_latencies[i]?) := by
  induction calls with
  | nil =>
    intro c hlen hidx
    refine ⟨c, rfl, hlen, ?_, ?_, rfl, rfl, ?_, ?_⟩
    · simp [Nat.mod_eq_of_lt hidx]
    · have : ¬ 10 ≤ c.last_latency_index := Nat.not_le.mpr hidx
      simp [this]
    · intro j hj
      simp at hj
    · intro i _
      rfl
  | cons call rest ih =>
    intro c hlen hidx
    obtain ⟨c1, hs, harr, hi1, hf1, hc1, he1⟩ := sent_ok c call.1 call.2 (by rw [hlen]; exact hidx)
    have hlen1 : c1.last_latencies.length = 10 := by rw [harr, List.length_set, hlen]
    rw [hlen] at hi1 hf1
    have hidx1 : c1.last_latency_index = (c.last_latency_index + 1) % 10 := by
      rw [hi1]
      split <;> omega
    obtain ⟨c', hseq, hlen', hi', hf', hc', he', hlast, hframe⟩ :=
      ih c1 hlen1 (by rw [hidx1]; exact Nat.mod_lt _ (by decide))
    refine ⟨c', ?_, hlen', ?_, ?_, hc'.trans hc1, he'.trans he1, ?_, ?_⟩
    · simp [sent_seq, hs, hseq]
    · rw [hi', hidx1, List.length_cons]
      omega
    · rw [hf', hf1, hidx1, List.length_cons]
      by_cases h9 : 10 ≤ c.last_latency_index + 1
      · have : 10 ≤ c.last_latency_index + (rest.length + 1) := by omega
        simp [h9, this]
      · have hm : (c.last_latency_index + 1) % 10 = c.last_latency_index + 1 :=
          Nat.mod_eq_of_lt (by omega)
        rw [hm]
        have : (10 ≤ c.last_latency_index + 1 + rest.length) ↔
            (10 ≤ c.last_latency_index + (rest.length + 1)) := by omega
        simp [h9, this]
    · intro j hj hrecent
      rw [List.length_cons] at hj hrecent
      cases j with
      | zero =>
        have hkeep := hframe c.last_latency_index (by
          intro j' hj'
          rw [hidx1]
          omega)
        rw [Nat.add_zero, Nat.mod_eq_of_lt hidx, hkeep, harr,
          List.getElem?_set_self (by rw [hlen]; exact hidx)]
        simp
      | succ j' =>
        have := hlast j' (by omega) (by omega)
        rw [hidx1] at this
        have hslot : (c.last_latency_index + (j' + 1)) % 10 =
            ((c.last_latency_index + 1) % 10 + j') % 10 := by omega
        rw [hslot, this]
        simp
    · intro i hi
      have h0 := hi 0 (by simp)
      rw [Nat.add_zero, Nat.mod_eq_of_lt hidx] at h0
      rw [hframe i (by
        intro j' hj'
        have := hi (j' + 1) (by simp; exact hj')
        rw [hidx1]
        omega), harr, List.getElem?_set_ne h0]

/-! ## Lemmas on machine conversions -/

theorem toInt64_bounds (i : Int) : -(2 ^ 63) ≤ toInt64 i ∧ toInt64 i < 2 ^ 63 := by
  unfold toInt64 U64
  simp only
  split <;> omega

theorem toUint64_of_pos_int64 (v : Int) (h : 0 < v) (h2 : v < 2 ^ 63) :
    toUint64 v = v.toNat := by
  unfold toUint64 U64
  congr 1
  omega

theorem toUint64_toInt64_natCast (n : Nat) (h : n < U64) : toUint64 (toInt64 (n : Int)) = n := by
  unfold toUint64 toInt64 U64 at *
  simp only
  split <;> omega

/-! ## Lemmas on `update_stats` -/

/-- The fold of lines 135 to 140 from any starting pair. -/
theorem latency_fold (lats : List Int) :
    ∀ acc : Nat × Nat,
      lats.foldl (fun acc v => if v > 0 then (add64 acc.1 (toUint64 v), acc.2 + 1) else acc) acc =
        (if positive_latencies lats = [] then acc.1
          else (acc.1 + ((positive_latencies lats).map toUint64).sum) % U64,
         acc.2 + (positive_latencies lats).length) := by
  induction lats with
  | nil =>
    intro acc
    simp [positive_latencies]
  | cons v rest ih =>
    intro acc
    rw [List.foldl_cons, ih]
    by_cases hv : v > 0
    · have hv' : 0 < v := hv
      simp only [hv, if_true, positive_latencies, List.filter_cons, hv', decide_True,
        List.map_cons, List.sum_cons, List.length_cons]
      refine Prod.ext ?_ (by simp only; omega)
      simp only [reduceCtorEq, if_false]
      split
      · rename_i hnil
        simp [hnil, add64]
      · simp only [add64, Nat.mod_add_mod, Nat.add_assoc]
    · have hv' : ¬ 0 < v := hv
      simp [hv, positive_latencies, List.filter_cons, hv']

theorem latency_total_cnt_eq (lats : List Int) :
    latency_total_cnt lats =
      ((((positive_latencies lats).map toUint64).sum) % U64, (positive_latencies lats).length) := by
  unfold latency_total_cnt
  rw [latency_fold]
  by_cases h : positive_latencies lats = []
  · simp [h]
  · simp [h]

theorem update_latency_not_full (evtc : EventClient) (h : evtc.last_latency_full = false) :
    update_latency evtc = Except.ok evtc := by
  simp [update_latency, h]

theorem update_latency_full (evtc : EventClient) (h : evtc.last_latency_full = true)
    (hpos : positive_latencies evtc.last_latencies ≠ []) :
    update_latency evtc = Except.ok { evtc with
      counters := mapSet evtc.counters LATENCY
        ((((positive_latencies evtc.last_latencies).map toUint64).sum) % U64 /
          (positive_latencies evtc.last_latencies).length / 1000 / 1000) } := by
  have hcnt : (positive_latencies evtc.last_latencies).length ≠ 0 := by
    intro h0
    exact hpos (List.eq_nil_of_length_eq_zero h0)
  have hlt : (((positive_latencies evtc.last_latencies).map toUint64).sum) % U64 /
      (positive_latencies evtc.last_latencies).length / 1000 / 1000 < U64 := by
    have h1 : (((positive_latencies evtc.last_latencies).map toUint64).sum) % U64 < U64 :=
      Nat.mod_lt _ U64_pos
    exact Nat.lt_of_le_of_lt
      (Nat.le_trans (Nat.div_le_self _ _) (Nat.le_trans (Nat.div_le_self _ _) (Nat.div_le_self _ _)))
      h1
  simp only [update_latency, h, if_true, latency_total_cnt_eq, hcnt, if_false]
  rw [toUint64_toInt64_natCast _ hlt]

theorem update_latency_full_fault (evtc : EventClient) (h : evtc.last_latency_full = true)
    (hpos : positive_latencies evtc.last_latencies = []) :
    update_latency evtc = Except.error "integer divide by zero" := by
  simp [update_latency, h, latency_total_cnt_eq, hpos]

/-- What `update_latency` leaves of the client: only the latency counter can
have moved, and the value it gets depends on the latencies alone. -/
theorem update_latency_shape (evtc e1 : EventClient) (h : update_latency evtc = Except.ok e1) :
    e1.last_latencies = evtc.last_latencies ∧ e1.last_latency_full = evtc.last_latency_full ∧
    e1.last_errors = evtc.last_errors ∧
    (e1.counters = evtc.counters ∧ evtc.last_latency_full = false ∨
      evtc.last_latency_full = true ∧ positive_latencies evtc.last_latencies ≠ [] ∧
      e1.counters = mapSet evtc.counters LATENCY
        ((((positive_latencies evtc.last_latencies).map toUint64).sum) % U64 /
          (positive_latencies evtc.last_latencies).length / 1000 / 1000)) := by
  cases hf : evtc.last_latency_full with
  | false =>
    rw [update_latency_not_full evtc hf] at h
    cases h
    simp [hf]
  | true =>
    by_cases hpos : positive_latencies evtc.last_latencies = []
    · rw [update_latency_full_fault evtc hf hpos] at h
      cases h
    · rw [update_latency_full evtc hf hpos] at h
      cases h
      simp [hf, hpos]

theorem mapSet_mapSet_same (m : CounterMap) (k : String) (v : Nat) :
    mapSet (mapSet m k v) k v = mapSet m k v := by
  induction m with
  | nil => simp [mapSet]
  | cons kv m ih =>
    obtain ⟨k', v'⟩ := kv
    by_cases h : k' = k
    · simp [mapSet, h]
    · simp [mapSet, h, ih]

theorem mapHas_of_mem (m : CounterMap) (kv : String × Nat) (h : kv ∈ m) : mapHas m kv.1 = true := by
  induction m with
  | nil => cases h
  | cons kv' m ih =>
    obtain ⟨k', v'⟩ := kv'
    by_cases hk : k' = kv.1
    · simp [mapHas, hk]
    · have hm : kv ∈ m := by
        rcases List.mem_cons.mp h with heq | hm
        · exact absurd (by rw [heq]) hk
        · exact hm
      simp [mapHas, hk, ih hm]

theorem mapIncluded_refl (m : CounterMap) : mapIncluded m m = true := by
  unfold mapIncluded
  rw [List.all_eq_true]
  intro kv hkv
  simp [mapHas_of_mem m kv hkv]

theorem deepEqual_refl (m : CounterMap) : deepEqual m m = true := by
  simp [deepEqual, mapIncluded_refl]

/-- Reading the set built by the `range` loop of line 144. -/
theorem mapGet_range_fold (db : CounterMap) (k : String) (counters : CounterMap) :
    mapGet (counters.foldr (fun kv t => mapSet t kv.1 (add64 kv.2 (mapGet db kv.1))) []) k =
      if mapHas counters k then add64 (mapGet counters k) (mapGet db k) else 0 := by
  induction counters with
  | nil => simp [mapGet, mapHas]
  | cons kv m ih =>
    obtain ⟨k0, v0⟩ := kv
    rw [List.foldr_cons]
    by_cases h : k0 = k
    · subst h
      simp [mapGet_mapSet_self, mapHas, mapGet]
    · rw [mapGet_mapSet_ne _ _ _ _ h, ih]
      simp [mapHas, mapGet, h]

theorem mapGet_tmp_counters_MISSED (counters db : CounterMap) (last_errors : Int) :
    mapGet (tmp_counters counters db last_errors) MISSED =
      if mapHas counters MISSED then add64 (mapGet counters MISSED) (mapGet db MISSED) else 0 := by
  unfold tmp_counters
  simp only
  rw [mapGet_mapSet_ne _ _ _ _ MISSED_ne_DROPPED.symm, mapGet_range_fold]

theorem mapGet_tmp_counters_DROPPED (counters db : CounterMap) (last_errors : Int) :
    mapGet (tmp_counters counters db last_errors) DROPPED =
      add64 (if mapHas counters DROPPED then add64 (mapGet counters DROPPED) (mapGet db DROPPED)
        else 0) (toUint64 last_errors) := by
  unfold tmp_counters
  simp only
  rw [mapGet_mapSet_self, mapGet_range_fold]

/-- A tick goes through whenever the latency refresh does, and either writes
the whole fresh set and remembers it, or writes nothing and keeps its
variables. -/
theorem update_stats_tick_of_latency (evtc e1 : EventClient) (loc : StatsLocals)
    (h : update_latency evtc = Except.ok e1) :
    ∃ t : Tick, update_stats_tick evtc loc = Except.ok t ∧ t.evtc = e1 ∧
      t.tmp = tmp_counters e1.counters loc.db_counters e1.last_errors ∧
      t.loc.db_counters = loc.db_counters ∧
      ((∃ wr, loc.wr_counters = some wr ∧ deepEqual t.tmp wr = false ∧
          t.loc.wr_counters = some t.tmp ∧
          t.hmset_calls =
            t.tmp.map (fun kv => { key := kv.1, field := STATS_FIELD_NAME, val := kv.2 })) ∨
        ((loc.wr_counters = none ∨ ∃ wr, loc.wr_counters = some wr ∧ deepEqual t.tmp wr = true) ∧
          t.loc = loc ∧ t.hmset_calls = [])) := by
  cases hwr : loc.wr_counters with
  | none =>
    refine ⟨_, by simp only [update_stats_tick, h, hwr]; rfl, rfl, rfl, rfl, Or.inr ?_⟩
    exact ⟨Or.inl rfl, rfl, rfl⟩
  | some wr =>
    cases hde : deepEqual (tmp_counters e1.counters loc.db_counters e1.last_errors) wr with
    | true =>
      refine ⟨_, by simp only [update_stats_tick, h, hwr, hde]; rfl, rfl, rfl, rfl, Or.inr ?_⟩
      exact ⟨Or.inr ⟨wr, rfl, hde⟩, rfl, rfl⟩
    | false =>
      refine ⟨_, by simp only [update_stats_tick, h, hwr, hde]; rfl, rfl, rfl, rfl, Or.inl ?_⟩
      exact ⟨wr, rfl, hde, rfl, rfl⟩

theorem update_stats_tick_inv (evtc : EventClient) (loc : StatsLocals) (t : Tick)
    (h : update_stats_tick evtc loc = Except.ok t) :
    ∃ e1 : EventClient, update_latency evtc = Except.ok e1 := by
  cases hu : update_latency evtc with
  | error err =>
    simp [update_stats_tick, hu] at h
  | ok e1 => exact ⟨e1, rfl⟩

/-- Running the latency refresh again on unchanged inputs changes nothing more. -/
theorem update_latency_again (evtc e1 evtc' : EventClient) (h : update_latency evtc = Except.ok e1)
    (hc : evtc'.counters = e1.counters) (hl : evtc'.last_latencies = e1.last_latencies)
    (hf : evtc'.last_latency_full = e1.last_latency_full) :
    ∃ e2 : EventClient, update_latency evtc' = Except.ok e2 ∧ e2.counters = e1.counters ∧
      e2.last_errors = evtc'.last_errors := by
  obtain ⟨hl1, hf1, -, hcases⟩ := update_latency_shape evtc e1 h
  rcases hcases with ⟨-, hnf⟩ | ⟨hfull, hpos, hcnt⟩
  · have hf' : evtc'.last_latency_full = false := by rw [hf, hf1, hnf]
    exact ⟨evtc', update_latency_not_full evtc' hf', hc, rfl⟩
  · have hf' : evtc'.last_latency_full = true := by rw [hf, hf1, hfull]
    have hl' : evtc'.last_latencies = evtc.last_latencies := by rw [hl, hl1]
    have hpos' : positive_latencies evtc'.last_latencies ≠ [] := by rw [hl']; exact hpos
    refine ⟨_, update_latency_full evtc' hf' hpos', ?_, rfl⟩
    simp only [hc, hl', hcnt, mapSet_mapSet_same]

/-! ## Lemmas on a freshly constructed client -/

theorem sent_seq_fresh (paths : List String) (pfx : String) (handle : Nat) (q : PriorityQueue)
    (calls : List (Int × Value)) :
    ∃ c : EventClient, sent_seq (NewEventClient paths pfx handle q) calls = Except.ok c ∧
      c.last_latencies.length = 10 ∧
      c.last_latency_index = calls.length % 10 ∧
      c.last_latency_full = decide (10 ≤ calls.length) ∧
      c.counters = (NewEventClient paths pfx handle q).counters ∧
      (∀ j, j < calls.length → calls.length ≤ j + 10 →
        c.last_latencies[j % 10]? = (calls[j]?).map latency_of) ∧
      (∀ i, calls.length ≤ i → i < 10 → c.last_latencies[i]? = some 0) := by
  obtain ⟨c, hseq, hlen, hidx, hfull, hcnt, -, hlast, hframe⟩ :=
    sent_seq_invariant calls (NewEventClient paths pfx handle q)
      (by simp [NewEventClient, LATENCY_LIST_SIZE]) (by simp [NewEventClient])
  have h0 : (NewEventClient paths pfx handle q).last_latency_index = 0 := rfl
  have hf0 : (NewEventClient paths pfx handle q).last_latency_full = false := rfl
  rw [h0, Nat.zero_add] at hidx hfull
  rw [hf0, Bool.false_or] at hfull
  refine ⟨c, hseq, hlen, hidx, hfull, hcnt, ?_, ?_⟩
  · intro j hj hrecent
    have := hlast j hj hrecent
    rw [h0, Nat.zero_add] at this
    exact this
  · intro i hi hi10
    rw [hframe i (by
      intro j hj
      rw [h0, Nat.zero_add, Nat.mod_eq_of_lt (by omega)]
      omega)]
    have hrep : (NewEventClient paths pfx handle q).last_latencies = List.replicate 10 0 := rfl
    rw [hrep, List.getElem?_replicate_of_lt hi10]

/-- After exactly ten calls the list holds their latencies in call order. -/
theorem sent_seq_fresh_ten (paths : List String) (pfx : String) (handle : Nat) (q : PriorityQueue)
    (calls : List (Int × Value)) (hlen : calls.length = 10) :
    ∃ c : EventClient, sent_seq (NewEventClient paths pfx handle q) calls = Except.ok c ∧
      c.last_latencies = calls.map latency_of ∧ c.last_latency_full = true ∧
      c.counters = (NewEventClient paths pfx handle q).counters := by
  obtain ⟨c, hseq, hl, -, hfull, hcnt, hlast, -⟩ := sent_seq_fresh paths pfx handle q calls
  refine ⟨c, hseq, ?_, by rw [hfull, hlen]; rfl, hcnt⟩
  apply List.ext_getElem?
  intro n
  by_cases hn : n < 10
  · have := hlast n (by omega) (by omega)
    rw [Nat.mod_eq_of_lt hn] at this
    rw [this, List.getElem?_map]
  · rw [List.getElem?_eq_none (by omega), List.getElem?_eq_none (by simp; omega)]

theorem toUint64_eq_toNat_on_positive_latencies (calls : List (Int × Value)) :
    (positive_latencies (calls.map latency_of)).map toUint64 =
      (positive_latencies (calls.map latency_of)).map Int.toNat := by
  apply List.map_congr_left
  intro v hv
  unfold positive_latencies at hv
  rw [List.mem_filter] at hv
  obtain ⟨hmem, hpos⟩ := hv
  rw [List.mem_map] at hmem
  obtain ⟨call, -, rfl⟩ := hmem
  exact toUint64_of_pos_int64 _ (by simpa using hpos) (toInt64_bounds _).2

theorem sum_map_toNat_of_pos (l : List Int) (h : ∀ v ∈ l, 0 < v) :
    (l.map Int.toNat).sum = l.sum.toNat := by
  induction l with
  | nil => simp
  | cons v rest ih =>
    have hv : 0 < v := h v (List.mem_cons_self _ _)
    have hrest : ∀ w ∈ rest, 0 < w := fun w hw => h w (List.mem_cons_of_mem _ hw)
    have hsum : 0 ≤ rest.sum := List.sum_nonneg (fun w hw => Int.le_of_lt (hrest w hw))
    rw [List.map_cons, List.sum_cons, List.sum_cons, ih hrest]
    omega

/-- The latency counter after ten calls of `sent` on a fresh client and one tick. -/
theorem latency_after_ten (paths : List String) (pfx : String) (handle : Nat) (q : PriorityQueue)
    (calls : List (Int × Value)) (loc : StatsLocals) (hlen : calls.length = 10)
    (hpos : positive_latencies (calls.map latency_of) ≠ []) :
    latency_after (NewEventClient paths pfx handle q) calls loc =
      Except.ok ((((positive_latencies (calls.map latency_of)).map Int.toNat).sum % U64) /
        (positive_latencies (calls.map latency_of)).length / 1000 / 1000) := by
  obtain ⟨c, hseq, harr, hfull, -⟩ := sent_seq_fresh_ten paths pfx handle q calls hlen
  have hu := update_latency_full c hfull (by rw [harr]; exact hpos)
  obtain ⟨t, htick, hte, -⟩ := update_stats_tick_of_latency c _ loc hu
  simp only [latency_after, hseq, htick, hte, mapGet_mapSet_self, harr,
    toUint64_eq_toNat_on_positive_latencies]

/-! ## Claims on the latency list and the aggregation loop -/

/-- C5, as stated, fails: of ten recorded latencies, nine of ten milliseconds
and one of zero, the tick reports 10 (the mean of the nine positive values),
whereas the mean of the ten values is 9 milliseconds. -/
theorem C5_zero_latency_left_out_of_mean :
    nine_at_10ms_one_zero.map latency_of =
      [10000000, 10000000, 10000000, 0, 10000000, 10000000, 10000000, 10000000, 10000000,
        10000000] ∧
    latency_after freshClient nine_at_10ms_one_zero zeroStoreLocals = Except.ok 10 ∧
    ((nine_at_10ms_one_zero.map latency_of).sum / 10 / 1000 / 1000 = 9) := by
  refine ⟨by decide, rfl, by decide⟩

/-- C5, amended: after ten calls of `sent` on a freshly constructed client, at
least one of them with a positive latency, the next tick of `update_stats`
sets the latency counter to the mean of the positive latencies only: their
sum in 64-bit unsigned arithmetic, divided by their number, then by 1000 and
by 1000. When all ten are positive and their sum is below `2 ^ 64` this is
sum / 10 / 1000 / 1000. -/
theorem C5_latency_is_mean_of_positive_samples (paths : List String) (pfx : String) (handle : Nat)
    (q : PriorityQueue) (calls : List (Int × Value)) (loc : StatsLocals)
    (hlen : calls.length = LATENCY_LIST_SIZE)
    (hpos : positive_latencies (calls.map latency_of) ≠ []) :
    latency_after (NewEventClient paths pfx handle q) calls loc =
      Except.ok ((((positive_latencies (calls.map latency_of)).map Int.toNat).sum % U64) /
        (positive_latencies (calls.map latency_of)).length / 1000 / 1000) ∧
    ((∀ call ∈ calls, 0 < latency_of call) → ((calls.map latency_of).sum).toNat < U64 →
      latency_after (NewEventClient paths pfx handle q) calls loc =
        Except.ok (((calls.map latency_of).sum).toNat / 10 / 1000 / 1000)) := by
  have h := latency_after_ten paths pfx handle q calls loc hlen hpos
  refine ⟨h, ?_⟩
  intro hall hsum
  have hall' : ∀ v ∈ calls.map latency_of, 0 < v := by
    intro v hv
    rw [List.mem_map] at hv
    obtain ⟨call, hc, rfl⟩ := hv
    exact hall call hc
  have hfilter : positive_latencies (calls.map latency_of) = calls.map latency_of := by
    unfold positive_latencies
    rw [List.filter_eq_self]
    intro v hv
    simpa using hall' v hv
  rw [h, hfilter, sum_map_toNat_of_pos _ hall', Nat.mod_eq_of_lt hsum, List.length_map, hlen]
  rfl

/-- C5 amended, at ten latencies of one to ten milliseconds: the tick reports 5. -/
theorem C5_witness_one_to_ten_ms :
    ten_from_1ms_to_10ms.length = LATENCY_LIST_SIZE ∧
    latency_after freshClient ten_from_1ms_to_10ms zeroStoreLocals = Except.ok 5 :=
  ⟨rfl, (C5_latency_is_mean_of_positive_samples ["events"] "gnmi" 1 { items := [], disposed := false }
    ten_from_1ms_to_10ms zeroStoreLocals rfl (by decide)).1.trans rfl⟩

/-- C6: after any number of calls of `sent` on a freshly constructed client
the full flag is set exactly when at least ten calls were made, and with
fewer than ten a tick of `update_stats` goes through and leaves the client,
its latency counter included, as it was. The part of the claim that fails:
after ten calls that all recorded latency zero, the tick does not report an
average, it stops on the division by a zero count. -/
theorem C6_full_flag_from_tenth_sample_and_fault_on_no_positive_sample (paths : List String) (pfx : String)
    (handle : Nat) (q : PriorityQueue) (calls : List (Int × Value)) (loc : StatsLocals) :
    (∃ c : EventClient, sent_seq (NewEventClient paths pfx handle q) calls = Except.ok c ∧
      (c.last_latency_full = true ↔ LATENCY_LIST_SIZE ≤ calls.length) ∧
      (calls.length < LATENCY_LIST_SIZE →
        ∃ t : Tick, update_stats_tick c loc = Except.ok t ∧ t.evtc = c)) ∧
    ten_at_zero.map latency_of = [0, 0, 0, 0, 0, 0, 0, 0, 0, 0] ∧
    latency_after freshClient ten_at_zero zeroStoreLocals =
      Except.error "integer divide by zero" := by
  refine ⟨?_, by decide, rfl⟩
  obtain ⟨c, hseq, -, -, hfull, -, -, -⟩ := sent_seq_fresh paths pfx handle q calls
  refine ⟨c, hseq, ?_, ?_⟩
  · rw [hfull]
    simp [LATENCY_LIST_SIZE]
  · intro hlt
    have hnf : c.last_latency_full = false := by
      rw [hfull]
      simp only [LATENCY_LIST_SIZE] at hlt
      simp only [decide_eq_false_iff_not]
      omega
    obtain ⟨t, htick, hte, -⟩ :=
      update_stats_tick_of_latency c c loc (update_latency_not_full c hnf)
    exact ⟨t, htick, hte⟩

/-- C10: any sequence of calls of `sent` on a freshly constructed client goes
through (every store is in bounds) and leaves the index at the number of
calls modulo ten, below ten; each of the last ten calls has its latency in
the slot numbered by its position modulo ten, slots not yet reached still
hold zero, and from ten calls on the list read from the index onward is
exactly the latencies of the ten most recent calls, oldest first, so that the
next call overwrites the oldest. A single call changes the slot at the
current index and no other. -/
theorem C10_ring_buffer_keeps_ten_most_recent (paths : List String) (pfx : String) (handle : Nat)
    (q : PriorityQueue) (calls : List (Int × Value)) :
    ∃ c : EventClient, sent_seq (NewEventClient paths pfx handle q) calls = Except.ok c ∧
      c.last_latency_index = calls.length % LATENCY_LIST_SIZE ∧
      c.last_latency_index < LATENCY_LIST_SIZE ∧
      c.last_latencies.length = LATENCY_LIST_SIZE ∧
      (∀ j, j < calls.length → calls.length ≤ j + LATENCY_LIST_SIZE →
        c.last_latencies[j % LATENCY_LIST_SIZE]? = (calls[j]?).map latency_of) ∧
      (∀ i, calls.length ≤ i → i < LATENCY_LIST_SIZE → c.last_latencies[i]? = some 0) ∧
      (LATENCY_LIST_SIZE ≤ calls.length →
        c.last_latencies.rotate c.last_latency_index =
          (calls.drop (calls.length - LATENCY_LIST_SIZE)).map latency_of) ∧
      (∀ (c0 : EventClient) (now : Int) (val : Value),
        match sent c0 now val with
        | Except.ok c1 =>
            c0.last_latency_index < c0.last_latencies.length ∧
            c1.last_latencies = c0.last_latencies.set c0.last_latency_index (latency_of (now, val))
        | Except.error _ => ¬ c0.last_latency_index < c0.last_latencies.length) := by
  obtain ⟨c, hseq, hlen, hidx, -, -, hlast, hzero⟩ := sent_seq_fresh paths pfx handle q calls
  simp only [LATENCY_LIST_SIZE]
  refine ⟨c, hseq, hidx, by rw [hidx]; exact Nat.mod_lt _ (by decide), hlen, hlast, hzero, ?_, ?_⟩
  · intro hten
    apply List.ext_getElem?
    intro m
    by_cases hm : m < 10
    · rw [List.getElem?_rotate (by rw [hlen]; exact hm), hlen, hidx, List.getElem?_map,
        List.getElem?_drop]
      have := hlast (calls.length - 10 + m) (by omega) (by omega)
      have hslot : (calls.length - 10 + m) % 10 = (m + calls.length % 10) % 10 := by omega
      rw [hslot] at this
      exact this
    · rw [List.getElem?_eq_none (by rw [List.length_rotate, hlen]; omega),
        List.getElem?_eq_none (by simp; omega)]
  · intro c0 now val
    by_cases hb : c0.last_latency_index < c0.last_latencies.length
    · obtain ⟨c1, hs, harr, -⟩ := sent_ok c0 now val hb
      rw [hs]
      exact ⟨hb, harr⟩
    · simp [sent, hb]

/-! ## Claims on the published set and the write-back -/

theorem update_stats_tick_tmp (evtc : EventClient) (loc : StatsLocals) (t : Tick)
    (h : update_stats_tick evtc loc = Except.ok t) :
    ∃ e1 : EventClient, update_latency evtc = Except.ok e1 ∧ t.evtc = e1 ∧
      t.tmp = tmp_counters e1.counters loc.db_counters e1.last_errors := by
  obtain ⟨e1, hu⟩ := update_stats_tick_inv evtc loc t h
  obtain ⟨t', ht', hte, htmp, -⟩ := update_stats_tick_of_latency evtc e1 loc hu
  rw [h] at ht'
  cases ht'
  exact ⟨e1, hu, hte, htmp⟩

theorem update_latency_other_keys (evtc e1 : EventClient) (h : update_latency evtc = Except.ok e1)
    (k : String) (hk : k ≠ LATENCY) :
    mapGet e1.counters k = mapGet evtc.counters k ∧
    mapHas e1.counters k = mapHas evtc.counters k ∧ e1.last_errors = evtc.last_errors := by
  obtain ⟨-, -, he, hcases⟩ := update_latency_shape evtc e1 h
  rcases hcases with ⟨hc, -⟩ | ⟨-, -, hc⟩
  · rw [hc]
    exact ⟨rfl, rfl, he⟩
  · rw [hc, mapGet_mapSet_ne _ _ _ _ hk.symm, mapHas_mapSet_ne _ _ _ _ hk.symm]
    exact ⟨rfl, rfl, he⟩

theorem add64_le (a b : Nat) : add64 a b ≤ a + b := Nat.mod_le _ _

/-- C4: while nothing has been written yet (the last-written pointer is nil) a
tick of `update_stats` issues no `HMSet` at all and leaves the pointer nil,
whatever the freshly computed set is; so from the start of `update_stats` no
tick ever writes. At a client that has counted four missed events on a store
of zeros, the first tick computes a set with the missed counter at 4 and
writes nothing. -/
theorem C4_first_tick_writes_nothing (evtc : EventClient) (db : CounterMap) :
    (match update_stats_tick evtc { db_counters := db, wr_counters := none } with
      | Except.ok t => t.hmset_calls = [] ∧ t.loc.wr_counters = none
      | Except.error _ => True) ∧
    zeroStoreLocals.wr_counters = none ∧
    mapGet clientWithMissed4.counters MISSED = 4 ∧
    update_stats_tick clientWithMissed4 zeroStoreLocals =
      Except.ok
        { evtc := clientWithMissed4
          loc := zeroStoreLocals
          tmp := [(LATENCY, 0), (DROPPED, 0), (MISSED, 4)]
          hmset_calls := [] } := by
  refine ⟨?_, rfl, by decide, rfl⟩
  cases hu : update_latency evtc with
  | error err => simp [update_stats_tick, hu]
  | ok e1 => simp [update_stats_tick, hu]

/-- C7, as stated, fails: with the local counters unchanged (all zero) and the
same baseline, a tick after `failed_send 5` publishes a dropped value of 5 and
the tick after a further `failed_send 0` publishes 0. -/
theorem C7_published_dropped_decreases_after_failed_send :
    published (failed_send freshClient 5) zeroStoreLocals DROPPED = Except.ok 5 ∧
    published (failed_send (failed_send freshClient 5) 0) zeroStoreLocals DROPPED = Except.ok 0 ∧
    (failed_send (failed_send freshClient 5) 0).counters = (failed_send freshClient 5).counters :=
  ⟨rfl, rfl, rfl⟩

/-- C7, amended: for two ticks of `update_stats` with the same baseline, on a
client that holds the missed and dropped keys, where between the ticks neither
the local missed and dropped counters nor the failure count recorded by
`failed_send` (as uint64) decreased, and where the sums of the later tick do
not wrap around `2 ^ 64`, the missed and dropped values computed by the
later tick are at least those computed by the earlier one. -/
theorem C7_published_cumulative_values_monotone (e1 e2 : EventClient) (db : CounterMap)
    (wr1 wr2 : Option CounterMap) (t1 t2 : Tick)
    (h1 : update_stats_tick e1 { db_counters := db, wr_counters := wr1 } = Except.ok t1)
    (h2 : update_stats_tick e2 { db_counters := db, wr_counters := wr2 } = Except.ok t2)
    (hkm : mapHas e2.counters MISSED = true) (hkd : mapHas e2.counters DROPPED = true)
    (hm : mapGet e1.counters MISSED ≤ mapGet e2.counters MISSED)
    (hd : mapGet e1.counters DROPPED ≤ mapGet e2.counters DROPPED)
    (he : toUint64 e1.last_errors ≤ toUint64 e2.last_errors)
    (hnm : mapGet e2.counters MISSED + mapGet db MISSED < U64)
    (hnd : mapGet e2.counters DROPPED + mapGet db DROPPED + toUint64 e2.last_errors < U64) :
    mapGet t1.tmp MISSED ≤ mapGet t2.tmp MISSED ∧
    mapGet t1.tmp DROPPED ≤ mapGet t2.tmp DROPPED := by
  obtain ⟨a1, hu1, -, htmp1⟩ := update_stats_tick_tmp e1 _ t1 h1
  obtain ⟨a2, hu2, -, htmp2⟩ := update_stats_tick_tmp e2 _ t2 h2
  obtain ⟨hm1, hhm1, he1⟩ := update_latency_other_keys e1 a1 hu1 MISSED MISSED_ne_LATENCY
  obtain ⟨hd1, hhd1, -⟩ := update_latency_other_keys e1 a1 hu1 DROPPED DROPPED_ne_LATENCY
  obtain ⟨hm2, hhm2, he2⟩ := update_latency_other_keys e2 a2 hu2 MISSED MISSED_ne_LATENCY
  obtain ⟨hd2, hhd2, -⟩ := update_latency_other_keys e2 a2 hu2 DROPPED DROPPED_ne_LATENCY
  rw [htmp1, htmp2]
  simp only [mapGet_tmp_counters_MISSED, mapGet_tmp_counters_DROPPED, hm1, hhm1, he1, hd1, hhd1,
    hm2, hhm2, he2, hd2, hhd2, hkm, hkd, if_true]
  have hadd_m : add64 (mapGet e2.counters MISSED) (mapGet db MISSED) =
      mapGet e2.counters MISSED + mapGet db MISSED := Nat.mod_eq_of_lt hnm
  have hadd_d : add64 (mapGet e2.counters DROPPED) (mapGet db DROPPED) =
      mapGet e2.counters DROPPED + mapGet db DROPPED := Nat.mod_eq_of_lt (by omega)
  have hadd_e : add64 (mapGet e2.counters DROPPED + mapGet db DROPPED) (toUint64 e2.last_errors) =
      mapGet e2.counters DROPPED + mapGet db DROPPED + toUint64 e2.last_errors :=
    Nat.mod_eq_of_lt hnd
  rw [hadd_m, hadd_d, hadd_e]
  constructor
  · split
    · exact Nat.le_trans (add64_le _ _) (by omega)
    · omega
  · refine Nat.le_trans (add64_le _ _) ?_
    split
    · have := add64_le (mapGet e1.counters DROPPED) (mapGet db DROPPED)
      omega
    · omega

/-- C7 amended, at a fresh client for the earlier tick and, for the later
one, a client that has since counted two missed events, one dropped record
and a failure count of 3, on a store of zeros. -/
theorem C7_witness_counts_grow :
    mapGet clientAfterDrop.counters MISSED = 2 ∧ mapGet clientAfterDrop.counters DROPPED = 1 ∧
    published freshClient zeroStoreLocals MISSED = Except.ok 0 ∧
    published clientAfterDrop zeroStoreLocals MISSED = Except.ok 2 ∧
    published freshClient zeroStoreLocals DROPPED = Except.ok 0 ∧
    published clientAfterDrop zeroStoreLocals DROPPED = Except.ok 4 ∧
    (0 : Nat) ≤ 2 ∧ (0 : Nat) ≤ 4 :=
  have h := C7_published_cumulative_values_monotone freshClient clientAfterDrop
    zeroStoreLocals.db_counters none none
    { evtc := freshClient, loc := zeroStoreLocals,
      tmp := [(LATENCY, 0), (DROPPED, 0), (MISSED, 0)], hmset_calls := [] }
    { evtc := clientAfterDrop, loc := zeroStoreLocals,
      tmp := [(LATENCY, 0), (DROPPED, 4), (MISSED, 2)], hmset_calls := [] }
    rfl rfl (by decide) (by decide) (by decide) (by decide) (by decide) (by decide) (by decide)
  ⟨by decide, by decide, rfl, rfl, rfl, rfl, h.1, h.2⟩

/-- C8: when a tick of `update_stats` has gone through and the counters, the
latency list, the full flag and the failure count of the client are then as
that tick left them, the next tick with the variables left by the first goes
through as well, computes the same set and issues no `HMSet`; so of two
consecutive ticks on unchanged inputs at most one writes, and if the first
wrote the second writes nothing. -/
theorem C8_second_tick_on_unchanged_inputs_writes_nothing (evtc evtc2 : EventClient)
    (loc : StatsLocals) (t1 : Tick)
    (h1 : update_stats_tick evtc loc = Except.ok t1)
    (hc : evtc2.counters = t1.evtc.counters)
    (hl : evtc2.last_latencies = t1.evtc.last_latencies)
    (hf : evtc2.last_latency_full = t1.evtc.last_latency_full)
    (he : evtc2.last_errors = t1.evtc.last_errors) :
    ∃ t2 : Tick, update_stats_tick evtc2 t1.loc = Except.ok t2 ∧
      t2.hmset_calls = [] ∧ t2.tmp = t1.tmp ∧ t2.loc = t1.loc ∧
      (t1.hmset_calls = [] ∨ t2.hmset_calls = []) ∧
      (t1.hmset_calls ≠ [] → t2.hmset_calls = []) := by
  obtain ⟨e1, hu⟩ := update_stats_tick_inv evtc loc t1 h1
  obtain ⟨t1', ht1', hte, htmp, hdb, hwrite⟩ := update_stats_tick_of_latency evtc e1 loc hu
  rw [h1] at ht1'
  cases ht1'
  rw [hte] at hc hl hf he
  obtain ⟨e2, hu2, hc2, he2⟩ := update_latency_again evtc e1 evtc2 hu hc hl hf
  obtain ⟨t2, ht2, -, htmp2, -, hwrite2⟩ := update_stats_tick_of_latency evtc2 e2 t1.loc hu2
  have hsame : t2.tmp = t1.tmp := by
    rw [htmp2, htmp, hc2, he2, he, hdb]
  have hnone : t2.hmset_calls = [] ∧ t2.loc = t1.loc := by
    rcases hwrite2 with ⟨wr, hwr, hne, -, -⟩ | ⟨-, hloc, hcalls⟩
    · exfalso
      rcases hwrite with ⟨wr0, -, -, hwr1, -⟩ | ⟨hprev, hloc1, -⟩
      · rw [hwr1] at hwr
        cases hwr
        rw [hsame, deepEqual_refl] at hne
        cases hne
      · rw [hloc1] at hwr
        rcases hprev with hnil | ⟨wr0, hwr0, heq⟩
        · rw [hnil] at hwr
          cases hwr
        · rw [hwr0] at hwr
          cases hwr
          rw [hsame, heq] at hne
          cases hne
    · exact ⟨hcalls, hloc⟩
  exact ⟨t2, ht2, hnone.1, hsame, hnone.2, Or.inr hnone.1, fun _ => hnone.1⟩

/-- C8 at a client that has counted four missed events, a store of zeros and
an empty last-written set: the first tick writes the three counters, the
second tick on the unchanged client writes nothing. -/
theorem C8_witness_write_then_no_write :
    ∃ t1 t2 : Tick, update_stats_tick clientWithMissed4 staleLocals = Except.ok t1 ∧
      t1.hmset_calls =
        [{ key := LATENCY, field := STATS_FIELD_NAME, val := 0 },
         { key := DROPPED, field := STATS_FIELD_NAME, val := 0 },
         { key := MISSED, field := STATS_FIELD_NAME, val := 4 }] ∧
      update_stats_tick clientWithMissed4 t1.loc = Except.ok t2 ∧ t2.hmset_calls = [] :=
  have h := C8_second_tick_on_unchanged_inputs_writes_nothing clientWithMissed4 clientWithMissed4
    staleLocals
    { evtc := clientWithMissed4
      loc := { staleLocals with wr_counters := some [(LATENCY, 0), (DROPPED, 0), (MISSED, 4)] }
      tmp := [(LATENCY, 0), (DROPPED, 0), (MISSED, 4)]
      hmset_calls :=
        [{ key := LATENCY, field := STATS_FIELD_NAME, val := 0 },
         { key := DROPPED, field := STATS_FIELD_NAME, val := 0 },
         { key := MISSED, field := STATS_FIELD_NAME, val := 4 }] }
    rfl rfl rfl rfl rfl
  Exists.elim h (fun t2 ht2 => ⟨_, t2, rfl, rfl, ht2.1, ht2.2.1⟩)

end EventsClient
